import Mathlib

/-!
Verification of the allocation/redistribution coordinator of the
`DataDistributionServer` (src/server-code.py) against its specification.

The server state (`self.clients`, `self.client_data`, `self.available_data`)
is embedded as `ServerState`.  Python dicts preserve insertion order, so they
are embedded as association lists with dict-style update (`dictSet`),
deletion (`dictRemove`) and lookup (`dictGet?`).

`random.sample(range(len(pool)), k)` returns `k` distinct indices into the
pool; the code immediately sorts them in descending order, both to build
`selected_data` and to pop them.  The embedding therefore takes the sampling
outcome as an explicit parameter `idx`: the descending-sorted list of the
sampled indices.  `validSampleB` states exactly the guarantees `random.sample`
provides: strictly descending, in range, of size `min n (pool length)`.
-/

namespace DistServer

/-- A CSV row (`csv.DictReader` record): its identifier field (`record['id']`
in the source) plus the remaining fields. -/
structure Record where
  id : String
  fields : List (String × String)
deriving DecidableEq

/-- The coordinator state of `DataDistributionServer`: the keys of
`self.clients` (the registered workers, in insertion order), `self.client_data`
(the assignment table) and `self.available_data` (the pool). -/
structure ServerState where
  clients : List String
  client_data : List (String × List Record)
  available_data : List Record
deriving DecidableEq

/-- Python dict assignment `d[k] = v`: overwrite the entry if the key is
present (keeping its position), else append a new entry. -/
def dictSet {α : Type} : List (String × α) → String → α → List (String × α)
  | [], k, v => [(k, v)]
  | (k', v') :: rest, k, v =>
    if k' = k then (k, v) :: rest else (k', v') :: dictSet rest k v

/-- Python dict deletion `del d[k]` / `d.pop(k)`: drop the entry with key `k`. -/
def dictRemove {α : Type} : List (String × α) → String → List (String × α)
  | [], _ => []
  | (k', v') :: rest, k =>
    if k' = k then rest else (k', v') :: dictRemove rest k

/-- Python dict lookup `d[k]` (as an option; `k in d` is `(dictGet? d k).isSome`). -/
def dictGet? {α : Type} : List (String × α) → String → Option α
  | [], _ => none
  | (k', v') :: rest, k => if k' = k then some v' else dictGet? rest k

/-- The keys of a dict. -/
def dictKeys {α : Type} (d : List (String × α)) : List String :=
  d.map Prod.fst

/-- `self.clients[client_id] = client_socket` seen at the level of the key set:
a fresh key is appended, an existing key keeps its position (its socket value
is overwritten). -/
def registerClient (clients : List String) (cid : String) : List String :=
  if cid ∈ clients then clients else clients ++ [cid]

/-- `n_records = max(1, len(self.available_data) // (len(self.clients) + 1))`
(line 113). -/
def n_records (st : ServerState) : Nat :=
  max 1 (st.available_data.length / (st.clients.length + 1))

/-- `[self.available_data[i] for i in sorted(selected_indices, reverse=True)]`
(line 116), `idx` being the descending-sorted sampled indices. -/
def selectData (avail : List Record) (idx : List Nat) : List Record :=
  idx.filterMap (fun i => avail.get? i)

/-- `for i in sorted(selected_indices, reverse=True): self.available_data.pop(i)`
(lines 118-119). -/
def popIndices (avail : List Record) (idx : List Nat) : List Record :=
  idx.foldl (fun l i => l.eraseIdx i) avail

/-- `idx` is strictly descending. -/
def strictDescB : List Nat → Bool
  | [] => true
  | [_] => true
  | a :: b :: t => (b < a) && strictDescB (b :: t)

/-- What `random.sample(range(len), min n len)`, sorted descending, guarantees
about the index list. -/
def validSampleB (n len : Nat) (idx : List Nat) : Bool :=
  strictDescB idx && idx.all (fun i => i < len) && (idx.length == min n len)

/-- A sampling outcome admissible for `distribute_data` on state `st`: when
the pool is empty no sample is drawn (the index list is ignored), otherwise
the list is a valid outcome for `random.sample(range(|pool|), min(n_records, |pool|))`. -/
def sampleOK (st : ServerState) (idx : List Nat) : Bool :=
  st.available_data.isEmpty || validSampleB (n_records st) st.available_data.length idx

/-- `distribute_data` (lines 107-122), the sampling outcome made explicit:
return `[]` on an empty pool, otherwise remove the sampled records from the
pool, set (not extend!) `client_data[client_id]` to them, and return them. -/
def distribute_data (st : ServerState) (cid : String) (idx : List Nat) :
    List Record × ServerState :=
  if st.available_data.isEmpty then ([], st)
  else
    let selected_data := selectData st.available_data idx
    ( selected_data,
      { st with
          available_data := popIndices st.available_data idx,
          client_data := dictSet st.client_data cid selected_data } )

/-- The `for client_id in list(self.clients.keys())` loop of
`redistribute_data` (lines 135-142): one `distribute_data` per remaining
client, collecting the non-empty results that are pushed via
`send_data_to_client` (which does not change coordinator state); `oracle`
supplies one sampling outcome per `distribute_data` call. -/
def redistLoop : ServerState → List String → List (List Nat) →
    List (String × List Record) × ServerState
  | st, [], _ => ([], st)
  | st, c :: cs, oracle =>
    if c ∈ st.clients then
      let res := distribute_data st c (oracle.headD [])
      let rest := redistLoop res.2 cs oracle.tail
      (if res.1.isEmpty then rest.1 else (c, res.1) :: rest.1, rest.2)
    else redistLoop st cs oracle

/-- `redistribute_data` (lines 124-142): no-op when the disconnected client
has no table entry; otherwise pop its allocation, extend the pool with it,
and (if any clients remain) run the redistribution loop.  Returns the list of
pushes (`data_update` payloads per client) together with the final state. -/
def redistribute_data (st : ServerState) (cid : String) (oracle : List (List Nat)) :
    List (String × List Record) × ServerState :=
  match dictGet? st.client_data cid with
  | none => ([], st)
  | some redistrib =>
    let st1 : ServerState :=
      { st with
          client_data := dictRemove st.client_data cid,
          available_data := st.available_data ++ redistrib }
    if st1.clients.isEmpty then ([], st1)
    else redistLoop st1 st1.clients oracle

/-- `cleanup_client` (lines 94-105) at the coordinator level: if the client is
registered, delete it from `self.clients` and run `redistribute_data`
(closing the socket touches no coordinator state); otherwise do nothing. -/
def cleanup_client (st : ServerState) (cid : String) (oracle : List (List Nat)) :
    List (String × List Record) × ServerState :=
  if cid ∈ st.clients then
    redistribute_data { st with clients := st.clients.erase cid } cid oracle
  else ([], st)

/-- Admissibility of the sampling oracle along the redistribution loop. -/
def loopValidB : ServerState → List String → List (List Nat) → Bool
  | _, [], _ => true
  | st, c :: cs, oracle =>
    if c ∈ st.clients then
      sampleOK st (oracle.headD []) &&
        loopValidB (distribute_data st c (oracle.headD [])).2 cs oracle.tail
    else loopValidB st cs oracle

/-- Admissibility of the sampling oracle for a `cleanup_client` call. -/
def cleanupValidB (st : ServerState) (cid : String) (oracle : List (List Nat)) : Bool :=
  if cid ∈ st.clients then
    let st' : ServerState := { st with clients := st.clients.erase cid }
    match dictGet? st'.client_data cid with
    | none => true
    | some redistrib =>
      let st1 : ServerState :=
        { st' with
            client_data := dictRemove st'.client_data cid,
            available_data := st'.available_data ++ redistrib }
      if st1.clients.isEmpty then true
      else loopValidB st1 st1.clients oracle
  else true

/-- A coordinator operation, sampling outcomes made explicit: a worker
connecting (`start`, lines 165-167), a `get_data` request (line 55), or a
disconnect (`cleanup_client`, line 92). -/
inductive Op where
  | connect (cid : String)
  | request (cid : String) (idx : List Nat)
  | disconnect (cid : String) (oracle : List (List Nat))
deriving DecidableEq

/-- The state transformation of one operation. -/
def step (st : ServerState) : Op → ServerState
  | .connect cid => { st with clients := registerClient st.clients cid }
  | .request cid idx => (distribute_data st cid idx).2
  | .disconnect cid oracle => (cleanup_client st cid oracle).2

/-- Admissibility of one operation: `get_data` requests are issued by the
handler thread of a registered client, and sampling outcomes are genuine
`random.sample` outcomes. -/
def opValidB (st : ServerState) : Op → Bool
  | .connect _ => true
  | .request cid idx => decide (cid ∈ st.clients) && sampleOK st idx
  | .disconnect cid oracle => cleanupValidB st cid oracle

/-- Run a sequence of operations. -/
def run (st : ServerState) : List Op → ServerState
  | [] => st
  | op :: ops => run (step st op) ops

/-- Admissibility of a sequence of operations. -/
def runValidB (st : ServerState) : List Op → Bool
  | [] => true
  | op :: ops => opValidB st op && runValidB (step st op) ops

/-- The state right after `load_data` (lines 21-30): no clients, no
assignments, the pool holding the loaded records. -/
def loadState (records : List Record) : ServerState :=
  ⟨[], [], records⟩

/-- Sum of the sizes of all allocations in the assignment table. -/
def allocSum (cd : List (String × List Record)) : Nat :=
  (cd.map (fun p => p.2.length)).sum

/-- `|Pool| + Σ|allocation(w)|`, the conserved quantity of the spec. -/
def totalRecords (st : ServerState) : Nat :=
  st.available_data.length + allocSum st.client_data

/-- Total number of records contained in a list of pushes. -/
def pushesTotal (pushes : List (String × List Record)) : Nat :=
  (pushes.map (fun p => p.2.length)).sum

/-! ### Properties of the sampled index lists -/

theorem strictDescB_head {a : Nat} {l : List Nat} (h : strictDescB (a :: l) = true) :
    ∀ b ∈ l, b < a := by
  induction l generalizing a with
  | nil => simp
  | cons b t ih =>
    simp only [strictDescB, Bool.and_eq_true, decide_eq_true_eq] at h
    intro c hc
    rcases List.mem_cons.mp hc with rfl | hct
    · exact h.1
    · exact lt_trans (ih h.2 c hct) h.1

theorem strictDescB_tail {a : Nat} {l : List Nat} (h : strictDescB (a :: l) = true) :
    strictDescB l = true := by
  cases l with
  | nil => rfl
  | cons b t =>
    simp only [strictDescB, Bool.and_eq_true] at h
    exact h.2

theorem validSampleB_spec {n len : Nat} {idx : List Nat}
    (h : validSampleB n len idx = true) :
    strictDescB idx = true ∧ (∀ i ∈ idx, i < len) ∧ idx.length = min n len := by
  simp only [validSampleB, Bool.and_eq_true, List.all_eq_true, decide_eq_true_eq,
    beq_iff_eq] at h
  exact ⟨h.1.1, h.1.2, h.2⟩

theorem selectData_length {avail : List Record} {idx : List Nat}
    (h : ∀ i ∈ idx, i < avail.length) :
    (selectData avail idx).length = idx.length := by
  induction idx with
  | nil => rfl
  | cons a t ih =>
    have ha : a < avail.length := h a (List.mem_cons_self a t)
    simp only [selectData, List.filterMap_cons, List.get?_eq_get ha, List.length_cons]
    have := ih (fun i hi => h i (List.mem_cons_of_mem _ hi))
    simp only [selectData] at this
    rw [this]

theorem popIndices_length {avail : List Record} {idx : List Nat}
    (hd : strictDescB idx = true) (hb : ∀ i ∈ idx, i < avail.length) :
    (popIndices avail idx).length = avail.length - idx.length := by
  induction idx generalizing avail with
  | nil => simp [popIndices]
  | cons a t ih =>
    have ha : a < avail.length := hb a (List.mem_cons_self a t)
    have h1 : (avail.eraseIdx a).length + 1 = avail.length :=
      List.length_eraseIdx_add_one ha
    have hb' : ∀ i ∈ t, i < (avail.eraseIdx a).length := by
      intro i hi
      have : i < a := strictDescB_head hd i hi
      omega
    have := ih (strictDescB_tail hd) hb'
    show (popIndices (avail.eraseIdx a) t).length = avail.length - (t.length + 1)
    rw [this]
    omega

/-! ### Basic laws of `distribute_data` -/

theorem distribute_data_of_empty {st : ServerState} {cid : String} {idx : List Nat}
    (h : st.available_data = []) : distribute_data st cid idx = ([], st) := by
  simp [distribute_data, h]

theorem available_nonempty_isEmpty {st : ServerState} (h : st.available_data ≠ []) :
    st.available_data.isEmpty = false := by
  cases hc : st.available_data with
  | nil => exact absurd hc h
  | cons a t => rfl

theorem distribute_data_clients (st : ServerState) (cid : String) (idx : List Nat) :
    (distribute_data st cid idx).2.clients = st.clients := by
  unfold distribute_data
  split <;> rfl

theorem distribute_data_cd (cid : String) (idx : List Nat) {st : ServerState}
    (h : st.available_data ≠ []) :
    (distribute_data st cid idx).2.client_data =
      dictSet st.client_data cid (distribute_data st cid idx).1 := by
  simp [distribute_data, available_nonempty_isEmpty h]

theorem distribute_data_sel_length (cid : String) {st : ServerState} {idx : List Nat}
    (hne : st.available_data ≠ []) (hs : sampleOK st idx = true) :
    (distribute_data st cid idx).1.length =
      min (n_records st) st.available_data.length := by
  have hE := available_nonempty_isEmpty hne
  simp only [sampleOK, hE, Bool.false_or] at hs
  obtain ⟨-, hb, hlen⟩ := validSampleB_spec hs
  simp only [distribute_data, hE, Bool.false_eq_true, if_false]
  rw [selectData_length hb, hlen]

theorem distribute_data_pool_acct (cid : String) {st : ServerState} {idx : List Nat}
    (hs : sampleOK st idx = true) :
    (distribute_data st cid idx).2.available_data.length +
      (distribute_data st cid idx).1.length = st.available_data.length := by
  by_cases hne : st.available_data = []
  · rw [distribute_data_of_empty hne]
    simp [hne]
  · have hE := available_nonempty_isEmpty hne
    simp only [sampleOK, hE, Bool.false_or] at hs
    obtain ⟨hd, hb, hlen⟩ := validSampleB_spec hs
    simp only [distribute_data, hE, Bool.false_eq_true, if_false]
    rw [selectData_length hb, popIndices_length hd hb]
    have : idx.length ≤ st.available_data.length := by
      rw [hlen]; exact Nat.min_le_right _ _
    omega

theorem distribute_data_sel_pos (cid : String) {st : ServerState} {idx : List Nat}
    (hne : st.available_data ≠ []) (hs : sampleOK st idx = true) :
    1 ≤ (distribute_data st cid idx).1.length := by
  rw [distribute_data_sel_length cid hne hs]
  have h1 : 1 ≤ n_records st := le_max_left _ _
  have h2 : 1 ≤ st.available_data.length := by
    cases hc : st.available_data with
    | nil => exact absurd hc hne
    | cons a t => simp
  omega

/-! ### Dictionary laws -/

theorem allocSum_cons (k : String) (v : List Record) (rest : List (String × List Record)) :
    allocSum ((k, v) :: rest) = v.length + allocSum rest := by
  simp [allocSum]

theorem allocSum_dictSet (cd : List (String × List Record)) (k : String) (v : List Record) :
    allocSum (dictSet cd k v) + ((dictGet? cd k).getD []).length =
      allocSum cd + v.length := by
  induction cd with
  | nil => simp [dictSet, dictGet?, allocSum]
  | cons p rest ih =>
    obtain ⟨k', v'⟩ := p
    by_cases h : k' = k
    · simp [dictSet, dictGet?, h, allocSum_cons]
      omega
    · simp only [dictSet, dictGet?, h, if_false, allocSum_cons]
      omega

theorem allocSum_dictRemove (cd : List (String × List Record)) (k : String) :
    allocSum (dictRemove cd k) + ((dictGet? cd k).getD []).length = allocSum cd := by
  induction cd with
  | nil => simp [dictRemove, dictGet?, allocSum]
  | cons p rest ih =>
    obtain ⟨k', v'⟩ := p
    by_cases h : k' = k
    · simp only [dictRemove, dictGet?, h, if_true, allocSum_cons, if_pos rfl]
      simp [allocSum_cons]
      omega
    · simp only [dictRemove, dictGet?, h, if_false, allocSum_cons]
      omega

theorem dictKeys_cons {α : Type} (k' : String) (v' : α)
    (rest : List (String × α)) :
    dictKeys ((k', v') :: rest) = k' :: dictKeys rest := rfl

theorem dictGet?_dictSet_self (cd : List (String × List Record)) (k : String)
    (v : List Record) : dictGet? (dictSet cd k v) k = some v := by
  induction cd with
  | nil => simp [dictSet, dictGet?]
  | cons p rest ih =>
    obtain ⟨k', v'⟩ := p
    by_cases h : k' = k
    · simp [dictSet, dictGet?, h]
    · simp [dictSet, dictGet?, h, ih]

theorem dictGet?_dictSet_ne (cd : List (String × List Record)) {k c : String}
    (v : List Record) (h : c ≠ k) : dictGet? (dictSet cd k v) c = dictGet? cd c := by
  have hkc : ¬(k = c) := fun he => h he.symm
  induction cd with
  | nil => simp [dictSet, dictGet?, hkc]
  | cons p rest ih =>
    obtain ⟨k', v'⟩ := p
    by_cases hk : k' = k
    · subst hk
      simp only [dictSet, if_pos rfl, dictGet?, if_neg hkc]
    · simp only [dictSet, if_neg hk, dictGet?]
      by_cases hc : k' = c
      · simp [hc]
      · simp [hc, ih]

theorem dictKeys_dictSet (cd : List (String × List Record)) (k : String) (v : List Record) :
    dictKeys (dictSet cd k v) =
      if k ∈ dictKeys cd then dictKeys cd else dictKeys cd ++ [k] := by
  induction cd with
  | nil => simp [dictSet, dictKeys]
  | cons p rest ih =>
    obtain ⟨k', v'⟩ := p
    by_cases h : k' = k
    · subst h
      have hm : k' ∈ dictKeys ((k', v') :: rest) := by simp [dictKeys_cons]
      rw [if_pos hm]
      simp [dictSet, dictKeys_cons]
    · have hset : dictSet ((k', v') :: rest) k v = (k', v') :: dictSet rest k v := by
        simp [dictSet, h]
      have hkk' : ¬(k = k') := fun he => h he.symm
      rw [hset, dictKeys_cons, ih, dictKeys_cons]
      by_cases hm : k ∈ dictKeys rest
      · rw [if_pos hm, if_pos (List.mem_cons_of_mem _ hm)]
      · have hnot : k ∉ k' :: dictKeys rest := by
          simp [List.mem_cons, hkk', hm]
        rw [if_neg hm, if_neg hnot]
        simp

theorem dictKeys_dictRemove (cd : List (String × List Record)) (k : String) :
    dictKeys (dictRemove cd k) = (dictKeys cd).erase k := by
  induction cd with
  | nil => simp [dictRemove, dictKeys]
  | cons p rest ih =>
    obtain ⟨k', v'⟩ := p
    by_cases h : k' = k
    · subst h
      simp [dictRemove, dictKeys_cons, List.erase_cons_head]
    · have hrem : dictRemove ((k', v') :: rest) k = (k', v') :: dictRemove rest k := by
        simp [dictRemove, h]
      rw [hrem, dictKeys_cons, ih, dictKeys_cons, List.erase_cons]
      have : (k' == k) = false := by simp [h]
      simp [this]

/-! ### The conserved quantity under each operation -/

theorem totalRecords_distribute_le {st : ServerState} (cid : String) {idx : List Nat}
    (hs : sampleOK st idx = true) :
    totalRecords (distribute_data st cid idx).2 ≤ totalRecords st := by
  by_cases hne : st.available_data = []
  · rw [distribute_data_of_empty hne]
  · have hp := distribute_data_pool_acct cid hs
    have hcd := distribute_data_cd cid idx hne
    have hsum := allocSum_dictSet st.client_data cid (distribute_data st cid idx).1
    unfold totalRecords
    rw [hcd]
    omega

/-! ### The redistribution loop -/

theorem redistLoop_spec (cs : List String) :
    ∀ (st : ServerState) (oracle : List (List Nat)),
      loopValidB st cs oracle = true →
      (redistLoop st cs oracle).2.available_data.length +
          pushesTotal (redistLoop st cs oracle).1 = st.available_data.length ∧
        totalRecords (redistLoop st cs oracle).2 ≤ totalRecords st ∧
        (redistLoop st cs oracle).2.clients = st.clients := by
  induction cs with
  | nil =>
    intro st oracle _
    simp [redistLoop, pushesTotal]
  | cons c cs ih =>
    intro st oracle hv
    simp only [loopValidB] at hv
    by_cases hc : c ∈ st.clients
    · rw [if_pos hc, Bool.and_eq_true] at hv
      obtain ⟨hs, hv'⟩ := hv
      have hrest := ih (distribute_data st c (oracle.headD [])).2 oracle.tail hv'
      have hp := distribute_data_pool_acct c hs
      have hmu := totalRecords_distribute_le c hs
      have hcl := distribute_data_clients st c (oracle.headD [])
      simp only [redistLoop, if_pos hc]
      refine ⟨?_, le_trans hrest.2.1 hmu, by rw [hrest.2.2, hcl]⟩
      by_cases he : (distribute_data st c (oracle.headD [])).1.isEmpty
      · have hlen : (distribute_data st c (oracle.headD [])).1.length = 0 := by
          rwa [List.isEmpty_iff_length_eq_zero] at he
        simp only [he, if_true]
        omega
      · simp only [he, Bool.false_eq_true, if_false]
        simp only [pushesTotal, List.map_cons, List.sum_cons] at hrest ⊢
        omega
    · rw [if_neg hc] at hv
      simp only [redistLoop, if_neg hc]
      exact ih st oracle hv

/-! ### `cleanup_client`: reclaim and rebalance -/

theorem cleanup_client_not_registered {st : ServerState} {cid : String}
    {oracle : List (List Nat)} (h : cid ∉ st.clients) :
    cleanup_client st cid oracle = ([], st) := by
  simp [cleanup_client, h]

theorem cleanup_client_registered {st : ServerState} {cid : String}
    {oracle : List (List Nat)} (h : cid ∈ st.clients) :
    cleanup_client st cid oracle =
      redistribute_data ⟨st.clients.erase cid, st.client_data, st.available_data⟩
        cid oracle := by
  unfold cleanup_client
  rw [if_pos h]

theorem redistribute_data_none {st : ServerState} {cid : String}
    {oracle : List (List Nat)} (h : dictGet? st.client_data cid = none) :
    redistribute_data st cid oracle = ([], st) := by
  simp [redistribute_data, h]

theorem redistribute_data_some_empty {st : ServerState} {cid : String}
    {oracle : List (List Nat)} {redistrib : List Record}
    (h : dictGet? st.client_data cid = some redistrib)
    (hcl : st.clients.isEmpty = true) :
    redistribute_data st cid oracle =
      ([], ⟨st.clients, dictRemove st.client_data cid,
            st.available_data ++ redistrib⟩) := by
  simp [redistribute_data, h, hcl]

theorem redistribute_data_some_ne {st : ServerState} {cid : String}
    {oracle : List (List Nat)} {redistrib : List Record}
    (h : dictGet? st.client_data cid = some redistrib)
    (hcl : st.clients.isEmpty = false) :
    redistribute_data st cid oracle =
      redistLoop
        ⟨st.clients, dictRemove st.client_data cid, st.available_data ++ redistrib⟩
        st.clients oracle := by
  simp [redistribute_data, h, hcl]

theorem cleanupValidB_some_ne {st : ServerState} {cid : String}
    {oracle : List (List Nat)} {redistrib : List Record} (h : cid ∈ st.clients)
    (hg : dictGet? st.client_data cid = some redistrib)
    (hcl : (st.clients.erase cid).isEmpty = false) :
    cleanupValidB st cid oracle =
      loopValidB
        ⟨st.clients.erase cid, dictRemove st.client_data cid,
         st.available_data ++ redistrib⟩
        (st.clients.erase cid) oracle := by
  simp [cleanupValidB, h, hg, hcl]

theorem cleanup_client_acct {st : ServerState} {cid : String} {oracle : List (List Nat)}
    (h : cid ∈ st.clients) (hv : cleanupValidB st cid oracle = true) :
    (cleanup_client st cid oracle).2.available_data.length +
        pushesTotal (cleanup_client st cid oracle).1 =
      st.available_data.length + ((dictGet? st.client_data cid).getD []).length ∧
      totalRecords (cleanup_client st cid oracle).2 ≤ totalRecords st := by
  rw [cleanup_client_registered h]
  cases hget : dictGet? st.client_data cid with
  | none =>
    rw [@redistribute_data_none
      ⟨st.clients.erase cid, st.client_data, st.available_data⟩ cid oracle hget]
    dsimp only
    simp only [Option.getD_none, List.length_nil, pushesTotal,
      List.map_nil, List.sum_nil]
    exact ⟨trivial, le_of_eq rfl⟩
  | some redistrib =>
    have hmu1 : totalRecords
        (⟨st.clients.erase cid, dictRemove st.client_data cid,
          st.available_data ++ redistrib⟩ : ServerState) = totalRecords st := by
      have hrm := allocSum_dictRemove st.client_data cid
      rw [hget] at hrm
      simp only [totalRecords, List.length_append, Option.getD_some] at hrm ⊢
      omega
    cases hemp : (st.clients.erase cid).isEmpty with
    | true =>
      rw [@redistribute_data_some_empty
        ⟨st.clients.erase cid, st.client_data, st.available_data⟩
        cid oracle redistrib hget hemp]
      dsimp only
      simp only [hget, pushesTotal, List.map_nil, List.sum_nil, Option.getD_some,
        List.length_append]
      exact ⟨by omega, le_of_eq hmu1⟩
    | false =>
      rw [@redistribute_data_some_ne
        ⟨st.clients.erase cid, st.client_data, st.available_data⟩
        cid oracle redistrib hget hemp]
      rw [cleanupValidB_some_ne h hget hemp] at hv
      dsimp only
      obtain ⟨hacct, hmu, -⟩ := redistLoop_spec (st.clients.erase cid)
        ⟨st.clients.erase cid, dictRemove st.client_data cid,
         st.available_data ++ redistrib⟩ oracle hv
      simp only [List.length_append] at hacct
      simp only [hget, Option.getD_some]
      exact ⟨by omega, le_trans hmu (le_of_eq hmu1)⟩

theorem totalRecords_cleanup_le {st : ServerState} (cid : String)
    {oracle : List (List Nat)} (hv : cleanupValidB st cid oracle = true) :
    totalRecords (cleanup_client st cid oracle).2 ≤ totalRecords st := by
  by_cases h : cid ∈ st.clients
  · exact (cleanup_client_acct h hv).2
  · rw [cleanup_client_not_registered h]

/-! ### The location index (`get_id_locations`, lines 63-73)

`handle_client` answers `get_id_locations` by iterating `self.client_data.items()`
and, for each record of each client, executing `id_locations[record['id']] = cid`. -/

/-- The `id_locations` dict built by lines 64-67. -/
def idLocations (cd : List (String × List Record)) : List (String × String) :=
  cd.foldl (fun acc p => p.2.foldl (fun acc2 r => dictSet acc2 r.id p.1) acc) []

/-- The identifier→worker pairs derivable from the assignment table: one pair
per allocated record, keyed by its identifier, mapped to the holding worker,
in table iteration order. -/
def derivedPairs (cd : List (String × List Record)) : List (String × String) :=
  (cd.map (fun p => p.2.map (fun r => (r.id, p.1)))).flatten

/-- The identifiers of all allocated records, in table iteration order. -/
def allIds (cd : List (String × List Record)) : List String :=
  (cd.map (fun p => p.2.map (fun r => r.id))).flatten

theorem dictGet?_eq_none_iff {α : Type} (d : List (String × α)) (k : String) :
    dictGet? d k = none ↔ k ∉ dictKeys d := by
  induction d with
  | nil => simp [dictGet?, dictKeys]
  | cons p rest ih =>
    obtain ⟨k', v'⟩ := p
    by_cases h : k' = k
    · subst h
      simp [dictGet?, dictKeys_cons]
    · simp only [dictGet?, if_neg h, dictKeys_cons, List.mem_cons, ih]
      constructor
      · intro hk
        push_neg
        exact ⟨fun he => h he.symm, hk⟩
      · intro hk
        push_neg at hk
        exact hk.2

theorem dictSet_append_of_not_mem {α : Type} {acc : List (String × α)} {k : String}
    (v : α) (h : k ∉ dictKeys acc) : dictSet acc k v = acc ++ [(k, v)] := by
  induction acc with
  | nil => rfl
  | cons p rest ih =>
    obtain ⟨k', v'⟩ := p
    rw [dictKeys_cons, List.mem_cons] at h
    push_neg at h
    simp only [dictSet, if_neg (fun he : k' = k => h.1 he.symm), List.cons_append]
    rw [ih h.2]

theorem foldl_dictSet_records (cid : String) (data : List Record) :
    ∀ acc : List (String × String),
      (∀ r ∈ data, r.id ∉ dictKeys acc) → (data.map (fun r => r.id)).Nodup →
      data.foldl (fun a r => dictSet a r.id cid) acc =
        acc ++ data.map (fun r => (r.id, cid)) := by
  induction data with
  | nil => intro acc _ _; simp
  | cons r rest ih =>
    intro acc hks hnd
    rw [List.map_cons, List.nodup_cons] at hnd
    rw [List.foldl_cons,
      dictSet_append_of_not_mem cid (hks r (List.mem_cons_self r rest))]
    have hks' : ∀ r' ∈ rest, r'.id ∉ dictKeys (acc ++ [(r.id, cid)]) := by
      intro r' hr'
      have h1 : r'.id ∉ dictKeys acc := hks r' (List.mem_cons_of_mem _ hr')
      have h2 : r'.id ≠ r.id := by
        intro he
        exact hnd.1 (he ▸ List.mem_map_of_mem (fun x => x.id) hr')
      have happ : dictKeys (acc ++ [(r.id, cid)]) = dictKeys acc ++ [r.id] := by
        simp [dictKeys]
      rw [happ, List.mem_append]
      rintro (hc | hc)
      · exact h1 hc
      · exact h2 (List.mem_singleton.mp hc)
    rw [ih (acc ++ [(r.id, cid)]) hks' hnd.2]
    simp

theorem foldl_idLocations (cd : List (String × List Record)) :
    ∀ acc : List (String × String),
      (∀ i ∈ allIds cd, i ∉ dictKeys acc) → (allIds cd).Nodup →
      cd.foldl (fun acc2 p => p.2.foldl (fun a r => dictSet a r.id p.1) acc2) acc =
        acc ++ derivedPairs cd := by
  induction cd with
  | nil => intro acc _ _; simp [derivedPairs]
  | cons p rest ih =>
    intro acc hks hnd
    obtain ⟨cid, data⟩ := p
    have hall : allIds ((cid, data) :: rest) =
        data.map (fun r => r.id) ++ allIds rest := by
      simp [allIds]
    rw [hall] at hks hnd
    rw [List.nodup_append] at hnd
    obtain ⟨hnd1, hnd2, hdisj⟩ := hnd
    rw [List.foldl_cons]
    rw [foldl_dictSet_records cid data acc
      (fun r hr => hks r.id (List.mem_append_left _ (List.mem_map_of_mem _ hr))) hnd1]
    have hks' : ∀ i ∈ allIds rest, i ∉ dictKeys (acc ++ data.map fun r => (r.id, cid)) := by
      intro i hi
      have h1 : i ∉ dictKeys acc := hks i (List.mem_append_right _ hi)
      have h2 : i ∉ data.map fun r => r.id := fun hc => hdisj hc hi
      simp only [dictKeys, List.map_append, List.mem_append, List.map_map]
      rintro (hc | hc)
      · exact h1 hc
      · refine h2 ?_
        simpa [Function.comp] using hc
    rw [ih _ hks' hnd2]
    simp [derivedPairs]

theorem idLocations_eq_derivedPairs {cd : List (String × List Record)}
    (h : (allIds cd).Nodup) : idLocations cd = derivedPairs cd := by
  have := foldl_idLocations cd [] (by simp [dictKeys]) h
  simpa [idLocations] using this

theorem derivedPairs_snd_mem {cd : List (String × List Record)} {p : String × String}
    (h : p ∈ derivedPairs cd) : p.2 ∈ dictKeys cd := by
  simp only [derivedPairs, List.mem_flatten, List.mem_map] at h
  obtain ⟨l, ⟨q, hq, rfl⟩, hpl⟩ := h
  obtain ⟨r, -, rfl⟩ := List.mem_map.mp hpl
  exact List.mem_map_of_mem Prod.fst hq

/-! ### Assignment-table keys stay registered -/

/-- At a quiescent point, every worker holding records in the assignment table
is registered, and the table has no duplicate worker entries. -/
def KeysInv (st : ServerState) : Prop :=
  (∀ k ∈ dictKeys st.client_data, k ∈ st.clients) ∧ (dictKeys st.client_data).Nodup

theorem KeysInv_distribute {st : ServerState} {cid : String} (idx : List Nat)
    (hc : cid ∈ st.clients) (h : KeysInv st) :
    KeysInv (distribute_data st cid idx).2 := by
  by_cases hne : st.available_data = []
  · rw [distribute_data_of_empty hne]
    exact h
  · constructor
    · intro k hk
      rw [distribute_data_clients]
      rw [distribute_data_cd cid idx hne, dictKeys_dictSet] at hk
      by_cases hm : cid ∈ dictKeys st.client_data
      · rw [if_pos hm] at hk
        exact h.1 k hk
      · rw [if_neg hm, List.mem_append] at hk
        rcases hk with hk | hk
        · exact h.1 k hk
        · rw [List.mem_singleton] at hk
          exact hk ▸ hc
    · rw [distribute_data_cd cid idx hne, dictKeys_dictSet]
      by_cases hm : cid ∈ dictKeys st.client_data
      · rw [if_pos hm]
        exact h.2
      · rw [if_neg hm]
        simp [List.nodup_append, h.2, hm]

theorem KeysInv_redistLoop (cs : List String) :
    ∀ (st : ServerState) (oracle : List (List Nat)),
      KeysInv st → KeysInv (redistLoop st cs oracle).2 := by
  induction cs with
  | nil => intro st oracle h; exact h
  | cons c cs ih =>
    intro st oracle h
    simp only [redistLoop]
    by_cases hc : c ∈ st.clients
    · rw [if_pos hc]
      exact ih _ _ (KeysInv_distribute (oracle.headD []) hc h)
    · rw [if_neg hc]
      exact ih _ _ h

theorem KeysInv_cleanup {st : ServerState} (cid : String) (oracle : List (List Nat))
    (h : KeysInv st) : KeysInv (cleanup_client st cid oracle).2 := by
  by_cases hc : cid ∈ st.clients
  · rw [cleanup_client_registered hc]
    cases hget : dictGet? st.client_data cid with
    | none =>
      rw [@redistribute_data_none
        ⟨st.clients.erase cid, st.client_data, st.available_data⟩ cid oracle hget]
      have hnk : cid ∉ dictKeys st.client_data := (dictGet?_eq_none_iff _ _).mp hget
      refine ⟨?_, h.2⟩
      intro k hk
      have hne : k ≠ cid := fun he => hnk (he ▸ hk)
      exact (List.mem_erase_of_ne hne).mpr (h.1 k hk)
    | some redistrib =>
      have hmid : KeysInv
          (⟨st.clients.erase cid, dictRemove st.client_data cid,
            st.available_data ++ redistrib⟩ : ServerState) := by
        constructor
        · intro k hk
          dsimp only at hk ⊢
          rw [dictKeys_dictRemove] at hk
          rw [h.2.mem_erase_iff] at hk
          exact (List.mem_erase_of_ne hk.1).mpr (h.1 k hk.2)
        · dsimp only
          rw [dictKeys_dictRemove]
          exact h.2.erase cid
      cases hemp : (st.clients.erase cid).isEmpty with
      | true =>
        rw [@redistribute_data_some_empty
          ⟨st.clients.erase cid, st.client_data, st.available_data⟩
          cid oracle redistrib hget hemp]
        exact hmid
      | false =>
        rw [@redistribute_data_some_ne
          ⟨st.clients.erase cid, st.client_data, st.available_data⟩
          cid oracle redistrib hget hemp]
        exact KeysInv_redistLoop _ _ oracle hmid
  · rw [cleanup_client_not_registered hc]
    exact h

theorem KeysInv_step {st : ServerState} {op : Op} (hv : opValidB st op = true)
    (h : KeysInv st) : KeysInv (step st op) := by
  cases op with
  | connect cid =>
    refine ⟨?_, h.2⟩
    intro k hk
    show k ∈ registerClient st.clients cid
    unfold registerClient
    split
    · exact h.1 k hk
    · exact List.mem_append_left _ (h.1 k hk)
  | request cid idx =>
    rw [opValidB, Bool.and_eq_true, decide_eq_true_eq] at hv
    exact KeysInv_distribute idx hv.1 h
  | disconnect cid oracle => exact KeysInv_cleanup cid oracle h

theorem KeysInv_run (ops : List Op) :
    ∀ st : ServerState, runValidB st ops = true → KeysInv st →
      KeysInv (run st ops) := by
  induction ops with
  | nil => intro st _ h; exact h
  | cons op ops ih =>
    intro st hv h
    rw [runValidB, Bool.and_eq_true] at hv
    exact ih (step st op) hv.2 (KeysInv_step hv.1 h)

/-! ### The conserved quantity along an operation sequence -/

theorem totalRecords_step_le {st : ServerState} {op : Op}
    (hv : opValidB st op = true) : totalRecords (step st op) ≤ totalRecords st := by
  cases op with
  | connect cid => simp [step, totalRecords]
  | request cid idx =>
    rw [opValidB, Bool.and_eq_true] at hv
    exact totalRecords_distribute_le cid hv.2
  | disconnect cid oracle =>
    simp only [opValidB] at hv
    exact totalRecords_cleanup_le cid hv

theorem totalRecords_run_le (ops : List Op) :
    ∀ st : ServerState, runValidB st ops = true →
      totalRecords (run st ops) ≤ totalRecords st := by
  induction ops with
  | nil => intro st _; simp [run]
  | cons op ops ih =>
    intro st hv
    rw [runValidB, Bool.and_eq_true] at hv
    exact le_trans (ih (step st op) hv.2) (totalRecords_step_le hv.1)

/-! ### The lock discipline

`self.lock` is a `threading.Lock`, which is *not* reentrant: a thread that
acquires it while already holding it blocks forever.  Each `with self.lock:`
in the source is modelled by a check of the `held` flag: if the lock is
already held by the current thread, the operation blocks (`none`); otherwise
the body runs with the lock held.  `cleanup_client` (line 98) acquires the
lock and, still inside the `with` block, calls `redistribute_data`
(line 103), whose own `with self.lock:` (line 126) then re-acquires the same
lock; likewise `redistribute_data` calls `distribute_data` (line 138), whose
`with self.lock:` (line 109) re-acquires it. -/

/-- `distribute_data` under the lock model: its `with self.lock:` (line 109)
blocks if the current thread already holds the lock. -/
def distribute_locked (held : Bool) (st : ServerState) (cid : String)
    (idx : List Nat) : Option (List Record × ServerState) :=
  if held then none else some (distribute_data st cid idx)

/-- The redistribution loop (lines 135-142) under the lock model: it runs
with `redistribute_data`'s lock held, so its first `distribute_data` call on
a still-registered client blocks. -/
def redistLoop_locked (held : Bool) (st : ServerState) : List String → Option Unit
  | [] => some ()
  | c :: cs =>
    if c ∈ st.clients then
      match distribute_locked held st c [] with
      | none => none
      | some _ => redistLoop_locked held st cs
    else redistLoop_locked held st cs

/-- `redistribute_data` (lines 124-142) under the lock model: its
`with self.lock:` (line 126) blocks when the caller already holds the lock;
if entered, the loop body runs with the lock held. -/
def redistribute_locked (held : Bool) (st : ServerState) (cid : String) :
    Option ServerState :=
  if held then none
  else
    match dictGet? st.client_data cid with
    | none => some st
    | some redistrib =>
      let st1 : ServerState :=
        { st with
            client_data := dictRemove st.client_data cid,
            available_data := st.available_data ++ redistrib }
      if st1.clients.isEmpty then some st1
      else
        match redistLoop_locked true st1 st1.clients with
        | none => none
        | some _ => some st1

/-- `cleanup_client` (lines 94-105) under the lock model: the lock is free at
entry, so its `with self.lock:` (line 98) is acquired; `redistribute_data`
is then invoked with the lock held. -/
def cleanup_locked (st : ServerState) (cid : String) : Option ServerState :=
  if cid ∈ st.clients then
    redistribute_locked true { st with clients := st.clients.erase cid } cid
  else some st

/-! ### Worker-identifier generation (`start`, lines 163-172) -/

/-- `client_id = f"client_{len(self.clients) + 1}"` (line 166). -/
def gen_client_id (clients : List String) : String :=
  "client_" ++ Nat.repr (clients.length + 1)

/-- Accepting a connection (lines 165-167): generate the identifier and
execute `self.clients[client_id] = client_socket`, seen at the level of the
registered-identifier set. -/
def accept_client (clients : List String) : String × List String :=
  (gen_client_id clients, registerClient clients (gen_client_id clients))

/-! ### Concrete data for counterexamples and witnesses -/

/-- A concrete record with a numeric identifier. -/
def sampleRecord (n : Nat) : Record := ⟨Nat.repr n, []⟩

/-- A pool of two concrete records. -/
def twoRecords : List Record := [sampleRecord 1, sampleRecord 2]

/-- Ten concrete records, as loaded in the spec's worked scenario. -/
def tenRecords : List Record :=
  [sampleRecord 1, sampleRecord 2, sampleRecord 3, sampleRecord 4, sampleRecord 5,
   sampleRecord 6, sampleRecord 7, sampleRecord 8, sampleRecord 9, sampleRecord 10]

/-- Worker A connects and then issues two data requests, the second
overwriting the allocation obtained by the first. -/
def overwriteOps : List Op :=
  [.connect "A", .request "A" [1], .request "A" [0]]

/-! ## The claims -/

/-- C1 (counterexample): loading two records and letting worker A issue two
data requests is an admissible operation sequence after which
`|Pool| + Σ|allocation(w)|` is 1, not the 2 records loaded — the second
request overwrites A's allocation and its previous record disappears from
both pool and table. -/
theorem conservation_counterexample :
    runValidB (loadState twoRecords) overwriteOps = true ∧
      totalRecords (loadState twoRecords) = twoRecords.length ∧
      totalRecords (run (loadState twoRecords) overwriteOps) = 1 ∧
      totalRecords (run (loadState twoRecords) overwriteOps) ≠ twoRecords.length := by
  refine ⟨by decide, by decide, by decide, by decide⟩

/-- C1 (amended): for every admissible sequence of connect, data-request and
disconnect operations from a freshly loaded pool,
`|Pool| + Σ|allocation(w)|` never exceeds the number of records loaded at
startup (it can drop below it, because `distribute_data` replaces a worker's
allocation instead of appending to it). -/
theorem conservation_bound (records : List Record) (ops : List Op)
    (h : runValidB (loadState records) ops = true) :
    totalRecords (run (loadState records) ops) ≤ records.length := by
  have hle := totalRecords_run_le ops (loadState records) h
  simpa [totalRecords, loadState, allocSum] using hle

/-- Witness for the amended C1 at a concrete input. -/
theorem conservation_bound_witness :
    runValidB (loadState twoRecords) overwriteOps = true ∧
      totalRecords (run (loadState twoRecords) overwriteOps) ≤ twoRecords.length :=
  ⟨by decide, conservation_bound twoRecords overwriteOps (by decide)⟩

/-- C2 (counterexample): after worker A's first request its allocation is
`[sampleRecord 2]`; its second request returns `[sampleRecord 1]`, and the
allocation after that request is `[sampleRecord 1]` — not the previous
allocation with the new records appended, which would be
`[sampleRecord 2, sampleRecord 1]`. -/
theorem assign_appends_counterexample :
    runValidB (loadState twoRecords) overwriteOps = true ∧
      dictGet? (run (loadState twoRecords) (overwriteOps.take 2)).client_data "A" =
        some [sampleRecord 2] ∧
      (distribute_data (run (loadState twoRecords) (overwriteOps.take 2)) "A" [0]).1 =
        [sampleRecord 1] ∧
      dictGet? (run (loadState twoRecords) overwriteOps).client_data "A" =
        some [sampleRecord 1] ∧
      some [sampleRecord 1] ≠ some ([sampleRecord 2] ++ [sampleRecord 1]) := by
  refine ⟨by decide, by decide, by decide, by decide, by decide⟩

/-- C2 (amended): when the pool is non-empty, `distribute_data` sets the
worker's table entry to exactly the newly sampled records (creating the entry
if absent and discarding any records the worker previously held), and leaves
every other worker's entry unchanged. -/
theorem assign_replaces (st : ServerState) (cid : String) (idx : List Nat)
    (h : st.available_data ≠ []) :
    dictGet? (distribute_data st cid idx).2.client_data cid =
        some (distribute_data st cid idx).1 ∧
      ∀ c : String, c ≠ cid →
        dictGet? (distribute_data st cid idx).2.client_data c =
          dictGet? st.client_data c := by
  rw [distribute_data_cd cid idx h]
  exact ⟨dictGet?_dictSet_self _ _ _,
    fun c hc => dictGet?_dictSet_ne st.client_data _ hc⟩

/-- Witness for the amended C2 at a concrete input. -/
theorem assign_replaces_witness :
    (loadState twoRecords).available_data ≠ [] ∧
      (dictGet? (distribute_data (loadState twoRecords) "A" [0]).2.client_data "A" =
          some (distribute_data (loadState twoRecords) "A" [0]).1 ∧
        ∀ c : String, c ≠ "A" →
          dictGet? (distribute_data (loadState twoRecords) "A" [0]).2.client_data c =
            dictGet? (loadState twoRecords).client_data c) :=
  ⟨by decide, assign_replaces (loadState twoRecords) "A" [0] (by decide)⟩

/-- C3: disconnecting any registered worker deadlocks instead of rebalancing.
`cleanup_client` acquires the non-reentrant `threading.Lock` and, still
holding it, calls `redistribute_data`, whose own `with self.lock:` blocks
forever, so the reclaim-then-redistribute sequence never terminates and no
remaining worker is ever reached (and the pushes of lines 140, 152 would be
socket I/O performed inside the lock region anyway). -/
theorem cleanup_deadlocks (st : ServerState) (cid : String)
    (h : cid ∈ st.clients) : cleanup_locked st cid = none := by
  unfold cleanup_locked
  rw [if_pos h]
  rfl

/-- Witness for C3 at a concrete input: one registered worker holding one
record disconnects. -/
theorem cleanup_deadlocks_witness :
    "A" ∈ (⟨["A"], [("A", [sampleRecord 1])], []⟩ : ServerState).clients ∧
      cleanup_locked ⟨["A"], [("A", [sampleRecord 1])], []⟩ "A" = none :=
  ⟨by decide, cleanup_deadlocks ⟨["A"], [("A", [sampleRecord 1])], []⟩ "A" (by decide)⟩

/-- C4: on a non-empty pool, a request by a registered worker returns exactly
`min(|Pool|, max(1, ⌊|Pool| / (activeWorkerCount + 1)⌋))` records, removes
exactly that many from the pool, never more than the pool holds, and at least
one. -/
theorem fair_share_count (st : ServerState) (cid : String) (idx : List Nat)
    (hreg : cid ∈ st.clients) (hne : st.available_data ≠ [])
    (hs : sampleOK st idx = true) :
    (distribute_data st cid idx).1.length =
        min st.available_data.length
          (max 1 (st.available_data.length / (st.clients.length + 1))) ∧
      (distribute_data st cid idx).2.available_data.length +
          (distribute_data st cid idx).1.length = st.available_data.length ∧
      1 ≤ (distribute_data st cid idx).1.length ∧
      (distribute_data st cid idx).1.length ≤ st.available_data.length := by
  have h1 := distribute_data_sel_length cid hne hs
  have h2 := distribute_data_pool_acct cid hs
  refine ⟨?_, h2, distribute_data_sel_pos cid hne hs, by omega⟩
  rw [h1, Nat.min_comm]
  rfl

/-- Witness for C4 at a concrete input: one registered worker, ten records. -/
theorem fair_share_count_witness :
    "A" ∈ (⟨["A"], [], tenRecords⟩ : ServerState).clients ∧
      (⟨["A"], [], tenRecords⟩ : ServerState).available_data ≠ [] ∧
      sampleOK ⟨["A"], [], tenRecords⟩ [4, 3, 2, 1, 0] = true ∧
      ((distribute_data ⟨["A"], [], tenRecords⟩ "A" [4, 3, 2, 1, 0]).1.length =
          min (⟨["A"], [], tenRecords⟩ : ServerState).available_data.length
            (max 1 ((⟨["A"], [], tenRecords⟩ : ServerState).available_data.length /
              ((⟨["A"], [], tenRecords⟩ : ServerState).clients.length + 1))) ∧
        (distribute_data ⟨["A"], [], tenRecords⟩ "A" [4, 3, 2, 1, 0]).2.available_data.length +
            (distribute_data ⟨["A"], [], tenRecords⟩ "A" [4, 3, 2, 1, 0]).1.length =
          (⟨["A"], [], tenRecords⟩ : ServerState).available_data.length ∧
        1 ≤ (distribute_data ⟨["A"], [], tenRecords⟩ "A" [4, 3, 2, 1, 0]).1.length ∧
        (distribute_data ⟨["A"], [], tenRecords⟩ "A" [4, 3, 2, 1, 0]).1.length ≤
          (⟨["A"], [], tenRecords⟩ : ServerState).available_data.length) :=
  ⟨by decide, by decide, by decide,
    fair_share_count ⟨["A"], [], tenRecords⟩ "A" [4, 3, 2, 1, 0]
      (by decide) (by decide) (by decide)⟩

/-- C5: with an empty pool, a data request returns the empty sequence and the
state — pool, assignment table and registered workers — is exactly unchanged;
an immediately repeated request returns the same result. -/
theorem empty_pool_idempotent (st : ServerState) (cid : String) (idx idx' : List Nat)
    (h : st.available_data = []) :
    distribute_data st cid idx = ([], st) ∧
      distribute_data (distribute_data st cid idx).2 cid idx' = ([], st) := by
  have h1 : distribute_data st cid idx = ([], st) := distribute_data_of_empty h
  refine ⟨h1, ?_⟩
  rw [h1]
  exact distribute_data_of_empty h

/-- Witness for C5 at a concrete input. -/
theorem empty_pool_idempotent_witness :
    (⟨["A"], [("A", [sampleRecord 1])], []⟩ : ServerState).available_data = [] ∧
      (distribute_data ⟨["A"], [("A", [sampleRecord 1])], []⟩ "A" [] =
          ([], ⟨["A"], [("A", [sampleRecord 1])], []⟩) ∧
        distribute_data
            (distribute_data ⟨["A"], [("A", [sampleRecord 1])], []⟩ "A" []).2 "A" [] =
          ([], ⟨["A"], [("A", [sampleRecord 1])], []⟩)) :=
  ⟨rfl, empty_pool_idempotent ⟨["A"], [("A", [sampleRecord 1])], []⟩ "A" [] [] rfl⟩

/-- C6: disconnecting a registered worker reclaims its entire allocation into
the pool before the redistribution loop runs, and the records pushed during
the rebalance total at most the reclaimed allocation plus the pool before the
disconnect; indeed pool-after plus total-pushed exactly equals pool-before
plus the reclaimed allocation. -/
theorem rebalance_bound (st : ServerState) (cid : String) (oracle : List (List Nat))
    (h : cid ∈ st.clients) (hv : cleanupValidB st cid oracle = true) :
    pushesTotal (cleanup_client st cid oracle).1 ≤
        ((dictGet? st.client_data cid).getD []).length + st.available_data.length ∧
      (cleanup_client st cid oracle).2.available_data.length +
          pushesTotal (cleanup_client st cid oracle).1 =
        st.available_data.length + ((dictGet? st.client_data cid).getD []).length := by
  have hacct := cleanup_client_acct h hv
  exact ⟨by omega, hacct.1⟩

/-- Witness for C6 at a concrete input: A holds one record, B one, one in the
pool; A disconnects and the rebalance pushes to B. -/
theorem rebalance_bound_witness :
    "A" ∈ (⟨["A", "B"], [("A", [sampleRecord 1]), ("B", [sampleRecord 2])],
      [sampleRecord 3]⟩ : ServerState).clients ∧
      cleanupValidB
        ⟨["A", "B"], [("A", [sampleRecord 1]), ("B", [sampleRecord 2])],
          [sampleRecord 3]⟩ "A" [[1]] = true ∧
      (pushesTotal (cleanup_client
            ⟨["A", "B"], [("A", [sampleRecord 1]), ("B", [sampleRecord 2])],
              [sampleRecord 3]⟩ "A" [[1]]).1 ≤
          ((dictGet? [("A", [sampleRecord 1]), ("B", [sampleRecord 2])] "A").getD
            []).length + [sampleRecord 3].length ∧
        (cleanup_client
              ⟨["A", "B"], [("A", [sampleRecord 1]), ("B", [sampleRecord 2])],
                [sampleRecord 3]⟩ "A" [[1]]).2.available_data.length +
            pushesTotal (cleanup_client
              ⟨["A", "B"], [("A", [sampleRecord 1]), ("B", [sampleRecord 2])],
                [sampleRecord 3]⟩ "A" [[1]]).1 =
          [sampleRecord 3].length +
            ((dictGet? [("A", [sampleRecord 1]), ("B", [sampleRecord 2])] "A").getD
              []).length) :=
  ⟨by decide, by decide,
    rebalance_bound
      ⟨["A", "B"], [("A", [sampleRecord 1]), ("B", [sampleRecord 2])],
        [sampleRecord 3]⟩ "A" [[1]] (by decide) (by decide)⟩

/-- C8: invoking the disconnect cleanup on an identifier that is not
registered performs no pushes and leaves the pool, the assignment table and
the registered-worker set exactly unchanged. -/
theorem unregistered_disconnect_noop (st : ServerState) (cid : String)
    (oracle : List (List Nat)) (h : cid ∉ st.clients) :
    (cleanup_client st cid oracle).1 = [] ∧
      (cleanup_client st cid oracle).2.available_data = st.available_data ∧
      (cleanup_client st cid oracle).2.client_data = st.client_data ∧
      (cleanup_client st cid oracle).2.clients = st.clients := by
  rw [cleanup_client_not_registered h]
  exact ⟨rfl, rfl, rfl, rfl⟩

/-- Witness for C8 at a concrete input. -/
theorem unregistered_disconnect_noop_witness :
    "B" ∉ (⟨["A"], [("A", [sampleRecord 1])], [sampleRecord 2]⟩ : ServerState).clients ∧
      ((cleanup_client ⟨["A"], [("A", [sampleRecord 1])], [sampleRecord 2]⟩
            "B" [[0]]).1 = [] ∧
        (cleanup_client ⟨["A"], [("A", [sampleRecord 1])], [sampleRecord 2]⟩
            "B" [[0]]).2.available_data = [sampleRecord 2] ∧
        (cleanup_client ⟨["A"], [("A", [sampleRecord 1])], [sampleRecord 2]⟩
            "B" [[0]]).2.client_data = [("A", [sampleRecord 1])] ∧
        (cleanup_client ⟨["A"], [("A", [sampleRecord 1])], [sampleRecord 2]⟩
            "B" [[0]]).2.clients = ["A"]) :=
  ⟨by decide,
    unregistered_disconnect_noop ⟨["A"], [("A", [sampleRecord 1])], [sampleRecord 2]⟩
      "B" [[0]] (by decide)⟩

/-- C9: at any quiescent point reachable by admissible operations, provided
the allocated records carry pairwise distinct identifiers, the
`get_id_locations` dict is exactly the identifier→worker pairs derivable from
the assignment table (one pair per allocated record), and every worker it
references is currently registered — never a disconnected one. -/
theorem location_consistency (records : List Record) (ops : List Op)
    (hv : runValidB (loadState records) ops = true)
    (hids : (allIds (run (loadState records) ops).client_data).Nodup) :
    idLocations (run (loadState records) ops).client_data =
        derivedPairs (run (loadState records) ops).client_data ∧
      ∀ p ∈ idLocations (run (loadState records) ops).client_data,
        p.2 ∈ (run (loadState records) ops).clients := by
  have hinv := KeysInv_run ops (loadState records) hv
    ⟨fun k hk => by simp [loadState, dictKeys] at hk, by simp [loadState, dictKeys]⟩
  refine ⟨idLocations_eq_derivedPairs hids, ?_⟩
  intro p hp
  rw [idLocations_eq_derivedPairs hids] at hp
  exact hinv.1 p.2 (derivedPairs_snd_mem hp)

/-- Witness for C9 at a concrete input: A connects and requests one record. -/
theorem location_consistency_witness :
    runValidB (loadState twoRecords) [.connect "A", .request "A" [0]] = true ∧
      (allIds (run (loadState twoRecords)
        [.connect "A", .request "A" [0]]).client_data).Nodup ∧
      (idLocations (run (loadState twoRecords)
            [.connect "A", .request "A" [0]]).client_data =
          derivedPairs (run (loadState twoRecords)
            [.connect "A", .request "A" [0]]).client_data ∧
        ∀ p ∈ idLocations (run (loadState twoRecords)
            [.connect "A", .request "A" [0]]).client_data,
          p.2 ∈ (run (loadState twoRecords) [.connect "A", .request "A" [0]]).clients) :=
  ⟨by decide, by decide,
    location_consistency twoRecords [.connect "A", .request "A" [0]]
      (by decide) (by decide)⟩

/-- C10 (counterexample): connect twice from an empty registry (yielding
`client_1`, `client_2`), disconnect `client_1`; the identifier generated for
the next connection is `client_2`, which is the identifier of the still-live
registered worker — and registering it leaves the registry unchanged,
replacing that worker's connection entry. -/
theorem client_id_collision :
    (accept_client []).1 = "client_1" ∧
      (accept_client (accept_client []).2).1 = "client_2" ∧
      gen_client_id (((accept_client (accept_client []).2).2).erase "client_1") ∈
        ((accept_client (accept_client []).2).2).erase "client_1" ∧
      (accept_client (((accept_client (accept_client []).2).2).erase "client_1")).2 =
        ((accept_client (accept_client []).2).2).erase "client_1" := by
  refine ⟨by decide, by decide, by decide, by decide⟩

/-- C10 (amended): the identifier assigned to a newly accepted connection is
always the string `client_` followed by one plus the number of currently
registered workers; when (after disconnects) that identifier coincides with a
live worker's, registering the new connection does not add a worker — it
replaces the live worker's connection entry, leaving the registered-identifier
set unchanged. -/
theorem client_id_formula (clients : List String)
    (h : gen_client_id clients ∈ clients) :
    (accept_client clients).1 = "client_" ++ Nat.repr (clients.length + 1) ∧
      (accept_client clients).2 = clients := by
  exact ⟨rfl, by simp [accept_client, registerClient, h]⟩

/-- Witness for the amended C10 at a concrete input. -/
theorem client_id_formula_witness :
    gen_client_id ["client_2"] ∈ ["client_2"] ∧
      ((accept_client ["client_2"]).1 =
          "client_" ++ Nat.repr (["client_2"].length + 1) ∧
        (accept_client ["client_2"]).2 = ["client_2"]) :=
  ⟨by decide, client_id_formula ["client_2"] (by decide)⟩

/-- The operation sequence of the spec's worked scenario: A connects and
requests, then B connects and requests. -/
def scenarioOps (idxA idxB : List Nat) : List Op :=
  [.connect "A", .request "A" idxA, .connect "B", .request "B" idxB]

/-- The worked scenario over the lock-free data-flow of lines 107-142, i.e.
what the disconnect path computes *were its nested lock acquisitions able to
proceed*: whatever the random samples, A's request returns exactly 5 of the
ten records (pool left at 5), B's request then returns exactly 1 (pool left
at 4, A still holding 5), and the reclaim-and-rebalance for A's disconnect
would return A's 5 records to the pool (9) and push exactly 4 to B, leaving
the pool at 5.  The real program never gets there: see the deadlock theorem
below. -/
theorem worked_scenario (records : List Record) (idxA idxB : List Nat)
    (oracle : List (List Nat)) (hlen : records.length = 10)
    (hv : runValidB (loadState records) (scenarioOps idxA idxB) = true)
    (hvd : cleanupValidB (run (loadState records) (scenarioOps idxA idxB))
      "A" oracle = true) :
    ((dictGet? (run (loadState records)
        ((scenarioOps idxA idxB).take 2)).client_data "A").getD []).length = 5 ∧
    (run (loadState records) ((scenarioOps idxA idxB).take 2)).available_data.length = 5 ∧
    ((dictGet? (run (loadState records)
        (scenarioOps idxA idxB)).client_data "B").getD []).length = 1 ∧
    (run (loadState records) (scenarioOps idxA idxB)).available_data.length = 4 ∧
    ((dictGet? (run (loadState records)
        (scenarioOps idxA idxB)).client_data "A").getD []).length = 5 ∧
    (cleanup_client (run (loadState records) (scenarioOps idxA idxB))
        "A" oracle).1.map (fun p => (p.1, p.2.length)) = [("B", 4)] ∧
    (cleanup_client (run (loadState records) (scenarioOps idxA idxB))
        "A" oracle).2.available_data.length = 5 := by
  -- the first request, by worker A on the ten-record pool
  obtain ⟨selA, stA, hA⟩ :
      ∃ selA stA, distribute_data ⟨["A"], [], records⟩ "A" idxA = (selA, stA) :=
    ⟨_, _, rfl⟩
  have e0 : step (loadState records) (Op.connect "A") = ⟨["A"], [], records⟩ := rfl
  have e1 : step (⟨["A"], [], records⟩ : ServerState) (Op.request "A" idxA) = stA := by
    show (distribute_data ⟨["A"], [], records⟩ "A" idxA).2 = stA
    rw [hA]
  -- decompose the validity of the four operations
  simp only [scenarioOps, runValidB, opValidB, Bool.and_eq_true, Bool.true_and,
    Bool.and_true, decide_eq_true_eq] at hv
  rw [e0] at hv
  obtain ⟨⟨-, hs1⟩, hv⟩ := hv
  rw [e1] at hv
  have hne1 : (⟨["A"], [], records⟩ : ServerState).available_data ≠ [] := by
    intro hc
    have : records.length = 0 := by rw [show records = [] from hc]; rfl
    omega
  have hn1 : n_records ⟨["A"], [], records⟩ = 5 := by
    unfold n_records
    dsimp only
    rw [hlen]
    decide
  have hselA : selA.length = 5 := by
    have h1 := distribute_data_sel_length "A" hne1 hs1
    rw [hA] at h1
    dsimp only at h1
    rw [hn1, hlen] at h1
    exact h1
  have hstAp : stA.available_data.length = 5 := by
    have h2 := distribute_data_pool_acct "A" hs1
    rw [hA] at h2
    dsimp only at h2
    rw [hlen] at h2
    omega
  have hstAcl : stA.clients = ["A"] := by
    have h3 := distribute_data_clients ⟨["A"], [], records⟩ "A" idxA
    rw [hA] at h3
    exact h3
  have hstAcd : stA.client_data = [("A", selA)] := by
    have h4 := distribute_data_cd "A" idxA hne1
    rw [hA] at h4
    exact h4
  -- worker B connects
  have e2 : step stA (Op.connect "B") = ⟨["A", "B"], stA.client_data, stA.available_data⟩ := by
    show ServerState.mk (registerClient stA.clients "B") stA.client_data stA.available_data = _
    rw [hstAcl]
    rfl
  rw [e2] at hv
  -- the second request, by worker B on the five-record pool
  obtain ⟨selB, stB, hB⟩ :
      ∃ selB stB, distribute_data
        ⟨["A", "B"], stA.client_data, stA.available_data⟩ "B" idxB = (selB, stB) :=
    ⟨_, _, rfl⟩
  have e3 : step (⟨["A", "B"], stA.client_data, stA.available_data⟩ : ServerState)
      (Op.request "B" idxB) = stB := by
    show (distribute_data ⟨["A", "B"], stA.client_data, stA.available_data⟩ "B" idxB).2 = stB
    rw [hB]
  obtain ⟨-, hs3⟩ := hv
  have hne3 : (⟨["A", "B"], stA.client_data, stA.available_data⟩ : ServerState).available_data ≠ [] := by
    dsimp only
    intro hc
    rw [hc] at hstAp
    simp at hstAp
  have hn3 : n_records ⟨["A", "B"], stA.client_data, stA.available_data⟩ = 1 := by
    unfold n_records
    dsimp only
    rw [hstAp]
    decide
  have hselB : selB.length = 1 := by
    have h1 := distribute_data_sel_length "B" hne3 hs3
    rw [hB] at h1
    dsimp only at h1
    rw [hn3, hstAp] at h1
    exact h1
  have hstBp : stB.available_data.length = 4 := by
    have h2 := distribute_data_pool_acct "B" hs3
    rw [hB] at h2
    dsimp only at h2
    rw [hstAp] at h2
    omega
  have hstBcl : stB.clients = ["A", "B"] := by
    have h3 := distribute_data_clients ⟨["A", "B"], stA.client_data, stA.available_data⟩ "B" idxB
    rw [hB] at h3
    exact h3
  have hstBcd : stB.client_data = [("A", selA), ("B", selB)] := by
    have h4 := distribute_data_cd "B" idxB hne3
    rw [hB] at h4
    dsimp only at h4
    rw [hstAcd] at h4
    rw [h4]
    rfl
  -- the full runs
  have hrun2 : run (loadState records) ((scenarioOps idxA idxB).take 2) = stA := by
    show step (step (loadState records) (Op.connect "A")) (Op.request "A" idxA) = stA
    rw [e0, e1]
  have hrun4 : run (loadState records) (scenarioOps idxA idxB) = stB := by
    show step (step (step (step (loadState records) (Op.connect "A"))
      (Op.request "A" idxA)) (Op.connect "B")) (Op.request "B" idxB) = stB
    rw [e0, e1, e2, e3]
  rw [hrun2, hrun4]
  rw [hrun4] at hvd
  -- A's allocation and the pool after the first request
  have c1 : ((dictGet? stA.client_data "A").getD []).length = 5 := by
    rw [hstAcd]
    show ((some selA).getD []).length = 5
    rw [Option.getD_some]
    exact hselA
  -- allocations after the second request
  have hgetB : dictGet? stB.client_data "B" = some selB := by
    rw [hstBcd]
    rfl
  have hgetA : dictGet? stB.client_data "A" = some selA := by
    rw [hstBcd]
    rfl
  have c3 : ((dictGet? stB.client_data "B").getD []).length = 1 := by
    rw [hgetB, Option.getD_some]
    exact hselB
  have c5 : ((dictGet? stB.client_data "A").getD []).length = 5 := by
    rw [hgetA, Option.getD_some]
    exact hselA
  -- the disconnect of A
  have hmemA : "A" ∈ stB.clients := by
    rw [hstBcl]
    decide
  have herase : stB.clients.erase "A" = ["B"] := by
    rw [hstBcl]
    rfl
  have hremove : dictRemove stB.client_data "A" = [("B", selB)] := by
    rw [hstBcd]
    rfl
  have hclE : ((⟨stB.clients.erase "A", stB.client_data, stB.available_data⟩ :
      ServerState)).clients.isEmpty = false := by
    dsimp only
    rw [herase]
    rfl
  have hcleanup : cleanup_client stB "A" oracle =
      redistLoop ⟨["B"], [("B", selB)], stB.available_data ++ selA⟩ ["B"] oracle := by
    rw [cleanup_client_registered hmemA]
    rw [@redistribute_data_some_ne
      ⟨stB.clients.erase "A", stB.client_data, stB.available_data⟩ "A" oracle selA
      hgetA hclE]
    rw [herase, hremove]
  have hvloop : loopValidB ⟨["B"], [("B", selB)], stB.available_data ++ selA⟩
      ["B"] oracle = true := by
    rw [cleanupValidB_some_ne hmemA hgetA hclE] at hvd
    rw [herase, hremove] at hvd
    exact hvd
  -- the rebalance request for B
  obtain ⟨selC, stC, hC⟩ :
      ∃ selC stC, distribute_data ⟨["B"], [("B", selB)], stB.available_data ++ selA⟩
        "B" (oracle.headD []) = (selC, stC) :=
    ⟨_, _, rfl⟩
  have hp5 : (stB.available_data ++ selA).length = 9 := by
    rw [List.length_append, hstBp, hselA]
  have hne5 : (⟨["B"], [("B", selB)], stB.available_data ++ selA⟩ :
      ServerState).available_data ≠ [] := by
    dsimp only
    intro hc
    rw [hc] at hp5
    simp at hp5
  have hs5 : sampleOK ⟨["B"], [("B", selB)], stB.available_data ++ selA⟩
      (oracle.headD []) = true := by
    rw [loopValidB] at hvloop
    rw [if_pos (show "B" ∈ (⟨["B"], [("B", selB)], stB.available_data ++ selA⟩ :
      ServerState).clients from List.mem_cons_self "B" [])] at hvloop
    rw [Bool.and_eq_true] at hvloop
    exact hvloop.1
  have hn5 : n_records ⟨["B"], [("B", selB)], stB.available_data ++ selA⟩ = 4 := by
    unfold n_records
    dsimp only
    rw [hp5]
    decide
  have hselC : selC.length = 4 := by
    have h1 := distribute_data_sel_length "B" hne5 hs5
    rw [hC] at h1
    dsimp only at h1
    rw [hn5, hp5] at h1
    exact h1
  have hstCp : stC.available_data.length = 5 := by
    have h2 := distribute_data_pool_acct "B" hs5
    rw [hC] at h2
    dsimp only at h2
    rw [hp5] at h2
    omega
  have hselCne : selC.isEmpty = false := by
    cases hsel : selC with
    | nil => rw [hsel] at hselC; simp at hselC
    | cons a t => rfl
  have hloop : redistLoop ⟨["B"], [("B", selB)], stB.available_data ++ selA⟩
      ["B"] oracle = ([("B", selC)], stC) := by
    rw [redistLoop]
    rw [if_pos (show "B" ∈ (⟨["B"], [("B", selB)], stB.available_data ++ selA⟩ :
      ServerState).clients from List.mem_cons_self "B" [])]
    rw [hC]
    dsimp only
    rw [hselCne]
    rfl
  refine ⟨c1, hstAp, c3, hstBp, c5, ?_, ?_⟩
  · rw [hcleanup, hloop]
    dsimp only [List.map_cons, List.map_nil]
    rw [hselC]
  · rw [hcleanup, hloop]
    exact hstCp

/-- Instance of the data-flow scenario lemma at a concrete input: ten
concrete records and concrete admissible samples. -/
theorem worked_scenario_witness :
    tenRecords.length = 10 ∧
      runValidB (loadState tenRecords) (scenarioOps [4, 3, 2, 1, 0] [0]) = true ∧
      cleanupValidB (run (loadState tenRecords) (scenarioOps [4, 3, 2, 1, 0] [0]))
        "A" [[3, 2, 1, 0]] = true ∧
      (((dictGet? (run (loadState tenRecords)
          ((scenarioOps [4, 3, 2, 1, 0] [0]).take 2)).client_data "A").getD []).length = 5 ∧
        (run (loadState tenRecords)
          ((scenarioOps [4, 3, 2, 1, 0] [0]).take 2)).available_data.length = 5 ∧
        ((dictGet? (run (loadState tenRecords)
          (scenarioOps [4, 3, 2, 1, 0] [0])).client_data "B").getD []).length = 1 ∧
        (run (loadState tenRecords)
          (scenarioOps [4, 3, 2, 1, 0] [0])).available_data.length = 4 ∧
        ((dictGet? (run (loadState tenRecords)
          (scenarioOps [4, 3, 2, 1, 0] [0])).client_data "A").getD []).length = 5 ∧
        (cleanup_client (run (loadState tenRecords) (scenarioOps [4, 3, 2, 1, 0] [0]))
            "A" [[3, 2, 1, 0]]).1.map (fun p => (p.1, p.2.length)) = [("B", 4)] ∧
        (cleanup_client (run (loadState tenRecords) (scenarioOps [4, 3, 2, 1, 0] [0]))
            "A" [[3, 2, 1, 0]]).2.available_data.length = 5) :=
  ⟨by decide, by decide, by decide,
    worked_scenario tenRecords [4, 3, 2, 1, 0] [0] [[3, 2, 1, 0]]
      (by decide) (by decide) (by decide)⟩

/-- C7: the worked scenario's disconnect outcomes never occur when the
program runs.  After loading ten records, A connecting and requesting
(5 records, pool at 5) and B connecting and requesting (1 record, pool at 4),
the state is as the scenario prescribes — but A's disconnect then blocks
forever: `cleanup_client` holds the non-reentrant `threading.Lock` (line 98)
when `redistribute_data` re-acquires it (line 126), before the reclaim of
line 131 runs.  A's 5 records never return to the pool, no `data_update` is
ever pushed to B, and the pool stays at 4 instead of ending at 5. -/
theorem worked_scenario_deadlocks (records : List Record) (idxA idxB : List Nat)
    (hlen : records.length = 10)
    (hv : runValidB (loadState records) (scenarioOps idxA idxB) = true) :
    (run (loadState records) (scenarioOps idxA idxB)).available_data.length = 4 ∧
      "A" ∈ (run (loadState records) (scenarioOps idxA idxB)).clients ∧
      cleanup_locked (run (loadState records) (scenarioOps idxA idxB)) "A" =
        none := by
  obtain ⟨selA, stA, hA⟩ :
      ∃ selA stA, distribute_data ⟨["A"], [], records⟩ "A" idxA = (selA, stA) :=
    ⟨_, _, rfl⟩
  have e0 : step (loadState records) (Op.connect "A") = ⟨["A"], [], records⟩ := rfl
  have e1 : step (⟨["A"], [], records⟩ : ServerState) (Op.request "A" idxA) = stA := by
    show (distribute_data ⟨["A"], [], records⟩ "A" idxA).2 = stA
    rw [hA]
  simp only [scenarioOps, runValidB, opValidB, Bool.and_eq_true, Bool.true_and,
    Bool.and_true, decide_eq_true_eq] at hv
  rw [e0] at hv
  obtain ⟨⟨-, hs1⟩, hv⟩ := hv
  rw [e1] at hv
  have hne1 : (⟨["A"], [], records⟩ : ServerState).available_data ≠ [] := by
    intro hc
    have : records.length = 0 := by rw [show records = [] from hc]; rfl
    omega
  have hn1 : n_records ⟨["A"], [], records⟩ = 5 := by
    unfold n_records
    dsimp only
    rw [hlen]
    decide
  have hselA : selA.length = 5 := by
    have h1 := distribute_data_sel_length "A" hne1 hs1
    rw [hA] at h1
    dsimp only at h1
    rw [hn1, hlen] at h1
    exact h1
  have hstAp : stA.available_data.length = 5 := by
    have h2 := distribute_data_pool_acct "A" hs1
    rw [hA] at h2
    dsimp only at h2
    rw [hlen] at h2
    omega
  have hstAcl : stA.clients = ["A"] := by
    have h3 := distribute_data_clients ⟨["A"], [], records⟩ "A" idxA
    rw [hA] at h3
    exact h3
  have e2 : step stA (Op.connect "B") =
      ⟨["A", "B"], stA.client_data, stA.available_data⟩ := by
    show ServerState.mk (registerClient stA.clients "B") stA.client_data
      stA.available_data = _
    rw [hstAcl]
    rfl
  rw [e2] at hv
  obtain ⟨selB, stB, hB⟩ :
      ∃ selB stB, distribute_data
        ⟨["A", "B"], stA.client_data, stA.available_data⟩ "B" idxB = (selB, stB) :=
    ⟨_, _, rfl⟩
  have e3 : step (⟨["A", "B"], stA.client_data, stA.available_data⟩ : ServerState)
      (Op.request "B" idxB) = stB := by
    show (distribute_data ⟨["A", "B"], stA.client_data, stA.available_data⟩
      "B" idxB).2 = stB
    rw [hB]
  obtain ⟨-, hs3⟩ := hv
  have hne3 : (⟨["A", "B"], stA.client_data, stA.available_data⟩ :
      ServerState).available_data ≠ [] := by
    dsimp only
    intro hc
    rw [hc] at hstAp
    simp at hstAp
  have hn3 : n_records ⟨["A", "B"], stA.client_data, stA.available_data⟩ = 1 := by
    unfold n_records
    dsimp only
    rw [hstAp]
    decide
  have hselB : selB.length = 1 := by
    have h1 := distribute_data_sel_length "B" hne3 hs3
    rw [hB] at h1
    dsimp only at h1
    rw [hn3, hstAp] at h1
    exact h1
  have hstBp : stB.available_data.length = 4 := by
    have h2 := distribute_data_pool_acct "B" hs3
    rw [hB] at h2
    dsimp only at h2
    rw [hstAp] at h2
    omega
  have hstBcl : stB.clients = ["A", "B"] := by
    have h3 := distribute_data_clients
      ⟨["A", "B"], stA.client_data, stA.available_data⟩ "B" idxB
    rw [hB] at h3
    exact h3
  have hrun4 : run (loadState records) (scenarioOps idxA idxB) = stB := by
    show step (step (step (step (loadState records) (Op.connect "A"))
      (Op.request "A" idxA)) (Op.connect "B")) (Op.request "B" idxB) = stB
    rw [e0, e1, e2, e3]
  rw [hrun4]
  have hmemA : "A" ∈ stB.clients := by
    rw [hstBcl]
    decide
  refine ⟨hstBp, hmemA, ?_⟩
  unfold cleanup_locked
  rw [if_pos hmemA]
  rfl

/-- Witness for C7 at a concrete input: ten concrete records and concrete
admissible samples; the program reaches the pre-disconnect state (pool at 4)
and the disconnect of A blocks. -/
theorem worked_scenario_deadlocks_witness :
    tenRecords.length = 10 ∧
      runValidB (loadState tenRecords) (scenarioOps [4, 3, 2, 1, 0] [0]) = true ∧
      ((run (loadState tenRecords)
          (scenarioOps [4, 3, 2, 1, 0] [0])).available_data.length = 4 ∧
        "A" ∈ (run (loadState tenRecords) (scenarioOps [4, 3, 2, 1, 0] [0])).clients ∧
        cleanup_locked (run (loadState tenRecords)
          (scenarioOps [4, 3, 2, 1, 0] [0])) "A" = none) :=
  ⟨by decide, by decide,
    worked_scenario_deadlocks tenRecords [4, 3, 2, 1, 0] [0] (by decide) (by decide)⟩

end DistServer
